import Mathlib

/-!
Verification of `crates/m3/src/builder/structured.rs` (binius): structured
column specifications, their size validation, and synthesis of the
closed-form arithmetic expression for the incrementing column.

The file shallowly embeds the Rust source. The field-arithmetic
collaborator (`binius_field` / `binius_math`) is not part of the sources,
so its interface (bit width, canonical basis, expression trees with
evaluation, summation) is modelled from the specification, and a concrete
32-bit tower-field instance is built to exercise the theorems.
-/

namespace BiniusM3

/-- Error taxonomy of the module, from the Rust `enum Error`.
`Math` models the `Math(#[from] binius_math::Error)` variant; the
underlying cause is represented by an abstract code. -/
inductive Error where
  | MaxLogSizeTooLarge : Error
  | TableSizeTooLarge : Error
  | Math : Nat → Error
deriving DecidableEq, Repr

/-- Modelled from the spec: the expression-tree value type of the math
collaborator, supporting variable references (indexed by natural number),
field constants, addition and multiplication. -/
inductive ArithExpr (F : Type) where
  | Const : F → ArithExpr F
  | Var : Nat → ArithExpr F
  | Add : ArithExpr F → ArithExpr F → ArithExpr F
  | Mul : ArithExpr F → ArithExpr F → ArithExpr F
deriving DecidableEq, Repr

/-- Modelled from the spec: the field-arithmetic collaborator. A tower
field exposes a carrier type, the ring constants and operations, a
bit-width constant `N_BITS`, and the canonical basis `basis i` of the
field as a vector space over the 1-bit base field, for `i < N_BITS`.
The two multiplication laws are the only algebraic facts the claims
need from the collaborator (multiplying by the boolean constants). -/
structure TowerFieldModel where
  F : Type
  zero : F
  one : F
  add : F → F → F
  mul : F → F → F
  N_BITS : Nat
  basis : Nat → F
  zero_add : ∀ x : F, add zero x = x
  add_zero : ∀ x : F, add x zero = x
  zero_mul : ∀ x : F, mul zero x = zero
  one_mul : ∀ x : F, mul one x = x

/-- Modelled from the spec: evaluation of an expression tree at an
assignment of field values to the variables. -/
def eval (K : TowerFieldModel) : ArithExpr K.F → (Nat → K.F) → K.F
  | ArithExpr.Const c, _ => c
  | ArithExpr.Var i, σ => σ i
  | ArithExpr.Add a b, σ => K.add (eval K a σ) (eval K b σ)
  | ArithExpr.Mul a b, σ => K.mul (eval K a σ) (eval K b σ)

/-- Modelled from the spec: finite summation of expression trees
(the `Sum` impl of the math collaborator): the empty sum is the constant
zero, and a non-empty list of terms is combined with `Add`. -/
def sumExprs (K : TowerFieldModel) : List (ArithExpr K.F) → ArithExpr K.F
  | [] => ArithExpr.Const K.zero
  | t :: ts => ts.foldl ArithExpr.Add t

/-- Boolean point of the hypercube addressing row `r`: coordinate `i` is
the field constant one when bit `i` of `r` is set, else zero. -/
def boolPoint (K : TowerFieldModel) (r : Nat) : Nat → K.F :=
  fun i => if r.testBit i then K.one else K.zero

/-- Modelled from the spec: the field element whose basis expansion over
the 1-bit base field is the bit expansion of `r` over `m` coordinates:
the sum of `basis i` over the set bits of `r` below `m`. -/
def toFieldValue (K : TowerFieldModel) (m r : Nat) : K.F :=
  (List.range m).foldl
    (fun acc i => K.add acc (if r.testBit i then K.basis i else K.zero)) K.zero

/-- List of the summand terms of the incrementing expression:
`Var i * Const (basis i)` for `i` in `[0, m)`. -/
def incTerms (K : TowerFieldModel) (m : Nat) : List (ArithExpr K.F) :=
  (List.range m).map
    (fun i => ArithExpr.Mul (ArithExpr.Var i) (ArithExpr.Const (K.basis i)))

/-- Embedding of `incrementing_expr` from the Rust source: fail with
`MaxLogSizeTooLarge` when `max_log_size > F::N_BITS`, else sum the terms
`Var i * Const (basis i)` for `i` in `[0, max_log_size)`. -/
def incrementing_expr (K : TowerFieldModel) (max_log_size : Nat) :
    Except Error (ArithExpr K.F) :=
  if max_log_size > K.N_BITS then
    Except.error Error.MaxLogSizeTooLarge
  else
    Except.ok (sumExprs K (incTerms K max_log_size))

/-- Embedding of the Rust `enum StructuredDynSize`. -/
inductive StructuredDynSize where
  | Incrementing : Nat → StructuredDynSize
deriving DecidableEq, Repr

/-- Embedding of `StructuredDynSize::expr`. -/
def StructuredDynSize.expr (K : TowerFieldModel) :
    StructuredDynSize → Except Error (ArithExpr K.F)
  | StructuredDynSize.Incrementing max_size_log => incrementing_expr K max_size_log

/-- Embedding of `StructuredDynSize::max_size_log`. -/
def StructuredDynSize.max_size_log : StructuredDynSize → Nat
  | StructuredDynSize.Incrementing max_size_log => max_size_log

/-- Embedding of `StructuredDynSize::check_nvars`: note the source really
returns `Error::MaxLogSizeTooLarge` here, not `Error::TableSizeTooLarge`. -/
def StructuredDynSize.check_nvars (s : StructuredDynSize) (n_vars : Nat) :
    Except Error Unit :=
  if n_vars > s.max_size_log then
    Except.error Error.MaxLogSizeTooLarge
  else
    Except.ok ()

/-- Flattening of an expression into its top-level summands: an `Add`
node concatenates the summands of its children, and any other node is a
single summand. -/
def summands {F : Type} : ArithExpr F → List (ArithExpr F)
  | ArithExpr.Add a b => summands a ++ summands b
  | e => [e]

/-- Number of occurrences of variable `x` in an expression. -/
def occCount {F : Type} (x : Nat) : ArithExpr F → Nat
  | ArithExpr.Const _ => 0
  | ArithExpr.Var i => if i = x then 1 else 0
  | ArithExpr.Add a b => occCount x a + occCount x b
  | ArithExpr.Mul a b => occCount x a + occCount x b

/-- Upper bound on the degree of an expression in variable `x`:
additive across `Mul`, maximal across `Add`. -/
def degIn {F : Type} (x : Nat) : ArithExpr F → Nat
  | ArithExpr.Const _ => 0
  | ArithExpr.Var i => if i = x then 1 else 0
  | ArithExpr.Add a b => max (degIn x a) (degIn x b)
  | ArithExpr.Mul a b => degIn x a + degIn x b

/-- Modelled from the spec: the collaborator's basis lookup `basis(i)`
is specified only for `i < N_BITS`; the checked lookup makes the
precondition explicit by failing outside that range. -/
def basisChecked (K : TowerFieldModel) (i : Nat) : Option K.F :=
  if i < K.N_BITS then some (K.basis i) else none

/-- Term list of the incrementing expression built through the checked
basis lookup: `none` as soon as any lookup is out of range. -/
def incTermsChecked (K : TowerFieldModel) : Nat → Option (List (ArithExpr K.F))
  | 0 => some []
  | m + 1 =>
    match incTermsChecked K m, basisChecked K m with
    | some ts, some b =>
      some (ts ++ [ArithExpr.Mul (ArithExpr.Var m) (ArithExpr.Const b)])
    | _, _ => none

/-- Variant of `incrementing_expr` that threads the collaborator's
precondition on `basis`: an out-of-range basis lookup surfaces as a
forwarded math error instead of being assumed away. -/
def incrementing_expr_checked (K : TowerFieldModel) (max_log_size : Nat) :
    Except Error (ArithExpr K.F) :=
  if max_log_size > K.N_BITS then
    Except.error Error.MaxLogSizeTooLarge
  else
    match incTermsChecked K max_log_size with
    | some ts => Except.ok (sumExprs K ts)
    | none => Except.error (Error.Math 0)

/-! Concrete 32-bit tower field (Fan–Paar tower over the 1-bit field),
used to instantiate the generic theorems. Elements are naturals below
`2 ^ 2 ^ 5` in the canonical basis representation; addition is bitwise
xor and multiplication is the recursive tower multiplication. -/

/-- Generator adjoined at tower level `k`, as an element of level `k + 1`:
level 0 reduces with `X^2 = X + 1`, level `k + 1` with
`X^2 = X * alpha + 1` where `alpha` is the previous generator. -/
def towerAlpha : Nat → Nat
  | 0 => 1
  | k + 1 => 2 ^ 2 ^ k

/-- Tower multiplication at level `k`, on naturals below `2 ^ 2 ^ k`:
the low and high halves are multiplied at level `k` and the square of the
adjoined generator is reduced via `X^2 = X * alpha + 1`. -/
def towerMul : Nat → Nat → Nat → Nat
  | 0, a, b => a * b % 2
  | k + 1, a, b =>
    (towerMul k (a % 2 ^ 2 ^ k) (b % 2 ^ 2 ^ k) ^^^
       towerMul k (a / 2 ^ 2 ^ k) (b / 2 ^ 2 ^ k)) +
    2 ^ 2 ^ k *
      (((towerMul k (a % 2 ^ 2 ^ k ^^^ a / 2 ^ 2 ^ k)
            (b % 2 ^ 2 ^ k ^^^ b / 2 ^ 2 ^ k) ^^^
          towerMul k (a % 2 ^ 2 ^ k) (b % 2 ^ 2 ^ k)) ^^^
         towerMul k (a / 2 ^ 2 ^ k) (b / 2 ^ 2 ^ k)) ^^^
        towerMul k (towerMul k (a / 2 ^ 2 ^ k) (b / 2 ^ 2 ^ k)) (towerAlpha k))

theorem towerMul_zero_left (k b : Nat) : towerMul k 0 b = 0 := by
  induction k generalizing b with
  | zero => simp [towerMul]
  | succ k ih => simp [towerMul, ih]

theorem towerAlpha_lt (k : Nat) : towerAlpha k < 2 ^ 2 ^ k := by
  cases k with
  | zero => decide
  | succ k =>
    exact Nat.pow_lt_pow_right (by norm_num) (Nat.pow_lt_pow_right (by norm_num) (Nat.lt_succ_self k))

theorem two_pow_two_pow_succ (k : Nat) :
    2 ^ 2 ^ (k + 1) = 2 ^ 2 ^ k * 2 ^ 2 ^ k := by
  rw [pow_succ, pow_mul, sq]

theorem lo_add_mul_hi_lt {h lo hi : Nat} (hlo : lo < h) (hhi : hi < h) :
    lo + h * hi < h * h := by
  calc lo + h * hi < h + h * hi := Nat.add_lt_add_right hlo _
    _ = h * (1 + hi) := by ring
    _ ≤ h * h := Nat.mul_le_mul_left _ (by omega)

theorem towerMul_lt (k a b : Nat) (ha : a < 2 ^ 2 ^ k) (hb : b < 2 ^ 2 ^ k) :
    towerMul k a b < 2 ^ 2 ^ k := by
  induction k generalizing a b with
  | zero => exact Nat.mod_lt _ (by norm_num)
  | succ k ih =>
    rw [two_pow_two_pow_succ] at ha hb ⊢
    have hpos : 0 < 2 ^ 2 ^ k := Nat.pos_pow_of_pos _ (by norm_num)
    have ha0 : a % 2 ^ 2 ^ k < 2 ^ 2 ^ k := Nat.mod_lt _ hpos
    have hb0 : b % 2 ^ 2 ^ k < 2 ^ 2 ^ k := Nat.mod_lt _ hpos
    have ha1 : a / 2 ^ 2 ^ k < 2 ^ 2 ^ k := Nat.div_lt_of_lt_mul ha
    have hb1 : b / 2 ^ 2 ^ k < 2 ^ 2 ^ k := Nat.div_lt_of_lt_mul hb
    have hz0 := ih _ _ ha0 hb0
    have hz1 := ih _ _ ha1 hb1
    have hmid := ih _ _ (Nat.xor_lt_two_pow ha0 ha1) (Nat.xor_lt_two_pow hb0 hb1)
    have hred := ih _ _ hz1 (towerAlpha_lt k)
    exact lo_add_mul_hi_lt (Nat.xor_lt_two_pow hz0 hz1)
      (Nat.xor_lt_two_pow (Nat.xor_lt_two_pow (Nat.xor_lt_two_pow hmid hz0) hz1) hred)

theorem xor_xor_cancel_left (x y : Nat) : (x ^^^ y) ^^^ x = y := by
  rw [Nat.xor_comm x y, Nat.xor_assoc, Nat.xor_self, Nat.xor_zero]

theorem towerMul_one_left (k b : Nat) (hb : b < 2 ^ 2 ^ k) :
    towerMul k 1 b = b := by
  induction k generalizing b with
  | zero =>
    have hb2 : b < 2 := by simpa using hb
    simp [towerMul, Nat.mod_eq_of_lt hb2]
  | succ k ih =>
    rw [two_pow_two_pow_succ] at hb
    have hpos : 0 < 2 ^ 2 ^ k := Nat.pos_pow_of_pos _ (by norm_num)
    have h1 : (1 : Nat) < 2 ^ 2 ^ k :=
      Nat.one_lt_two_pow (Nat.pos_pow_of_pos _ (by norm_num)).ne'
    have hb0 : b % 2 ^ 2 ^ k < 2 ^ 2 ^ k := Nat.mod_lt _ hpos
    have hb1 : b / 2 ^ 2 ^ k < 2 ^ 2 ^ k := Nat.div_lt_of_lt_mul hb
    simp only [towerMul, Nat.mod_eq_of_lt h1, Nat.div_eq_of_lt h1,
      towerMul_zero_left, Nat.xor_zero, Nat.zero_xor, ih _ hb0,
      ih _ (Nat.xor_lt_two_pow hb0 hb1), xor_xor_cancel_left]
    exact Nat.mod_add_div b (2 ^ 2 ^ k)

/-- Concrete 32-bit tower field: carrier is the naturals below
`2 ^ 2 ^ 5 = 2 ^ 32`, addition is xor, multiplication is tower
multiplication at level 5, and `basis i` is the element with only bit
`i` set. -/
@[reducible] def B32 : TowerFieldModel where
  F := Fin (2 ^ 2 ^ 5)
  zero := ⟨0, by norm_num⟩
  one := ⟨1, by norm_num⟩
  add := fun a b => ⟨a.val ^^^ b.val, Nat.xor_lt_two_pow a.isLt b.isLt⟩
  mul := fun a b => ⟨towerMul 5 a.val b.val, towerMul_lt 5 _ _ a.isLt b.isLt⟩
  N_BITS := 32
  basis := fun i => ⟨2 ^ i % 2 ^ 2 ^ 5, Nat.mod_lt _ (by norm_num)⟩
  zero_add := fun x => Fin.ext (Nat.zero_xor x.val)
  add_zero := fun x => Fin.ext (Nat.xor_zero x.val)
  zero_mul := fun x => Fin.ext (towerMul_zero_left 5 x.val)
  one_mul := fun x => Fin.ext (towerMul_one_left 5 x.val x.isLt)

/-! General lemmas about evaluation and the shape of synthesized sums. -/

theorem incrementing_expr_ok (K : TowerFieldModel) (m : Nat) (hm : m ≤ K.N_BITS) :
    incrementing_expr K m = Except.ok (sumExprs K (incTerms K m)) := by
  unfold incrementing_expr
  rw [if_neg (Nat.not_lt.mpr hm)]

theorem eval_foldl_add (K : TowerFieldModel) (ts : List (ArithExpr K.F))
    (t : ArithExpr K.F) (σ : Nat → K.F) :
    eval K (ts.foldl ArithExpr.Add t) σ =
      ts.foldl (fun acc u => K.add acc (eval K u σ)) (eval K t σ) := by
  induction ts generalizing t with
  | nil => rfl
  | cons u us ih => simpa [List.foldl] using ih (ArithExpr.Add t u)

theorem eval_sumExprs (K : TowerFieldModel) (ts : List (ArithExpr K.F))
    (σ : Nat → K.F) :
    eval K (sumExprs K ts) σ =
      ts.foldl (fun acc u => K.add acc (eval K u σ)) K.zero := by
  cases ts with
  | nil => rfl
  | cons t ts =>
    show eval K (ts.foldl ArithExpr.Add t) σ = _
    rw [eval_foldl_add, List.foldl_cons, K.zero_add]

theorem eval_incTerms (K : TowerFieldModel) (m : Nat) (σ : Nat → K.F) :
    eval K (sumExprs K (incTerms K m)) σ =
      (List.range m).foldl
        (fun acc i => K.add acc (K.mul (σ i) (K.basis i))) K.zero := by
  rw [eval_sumExprs, incTerms, List.foldl_map]
  rfl

theorem summands_foldl_add {F : Type} (ts : List (ArithExpr F)) (t : ArithExpr F) :
    summands (ts.foldl ArithExpr.Add t) =
      ts.foldl (fun acc u => acc ++ summands u) (summands t) := by
  induction ts generalizing t with
  | nil => rfl
  | cons u us ih => simpa [List.foldl, summands] using ih (ArithExpr.Add t u)

theorem foldl_append_atomic {F : Type} (ts : List (ArithExpr F))
    (acc : List (ArithExpr F)) (hts : ∀ u ∈ ts, summands u = [u]) :
    ts.foldl (fun acc u => acc ++ summands u) acc = acc ++ ts := by
  induction ts generalizing acc with
  | nil => simp
  | cons u us ih =>
    rw [List.foldl_cons, hts u (List.mem_cons_self u us),
      ih (acc ++ [u]) (fun v hv => hts v (List.mem_cons_of_mem _ hv))]
    simp

theorem summands_sumExprs (K : TowerFieldModel) (ts : List (ArithExpr K.F))
    (hts : ∀ u ∈ ts, summands u = [u]) (hne : ts ≠ []) :
    summands (sumExprs K ts) = ts := by
  cases ts with
  | nil => exact absurd rfl hne
  | cons t ts =>
    show summands (ts.foldl ArithExpr.Add t) = t :: ts
    rw [summands_foldl_add,
      foldl_append_atomic ts (summands t)
        (fun v hv => hts v (List.mem_cons_of_mem _ hv)),
      hts t (List.mem_cons_self t ts)]
    rfl

theorem occCount_foldl_add {F : Type} (x : Nat) (ts : List (ArithExpr F))
    (t : ArithExpr F) :
    occCount x (ts.foldl ArithExpr.Add t) =
      ts.foldl (fun acc u => acc + occCount x u) (occCount x t) := by
  induction ts generalizing t with
  | nil => rfl
  | cons u us ih => simpa [List.foldl, occCount] using ih (ArithExpr.Add t u)

theorem occCount_sumExprs (K : TowerFieldModel) (x : Nat)
    (ts : List (ArithExpr K.F)) :
    occCount x (sumExprs K ts) =
      ts.foldl (fun acc u => acc + occCount x u) 0 := by
  cases ts with
  | nil => rfl
  | cons t ts =>
    show occCount x (ts.foldl ArithExpr.Add t) = _
    rw [occCount_foldl_add, List.foldl_cons, Nat.zero_add]

theorem degIn_foldl_add_le {F : Type} (x : Nat) (ts : List (ArithExpr F))
    (t : ArithExpr F) (d : Nat) (ht : degIn x t ≤ d)
    (hts : ∀ u ∈ ts, degIn x u ≤ d) :
    degIn x (ts.foldl ArithExpr.Add t) ≤ d := by
  induction ts generalizing t with
  | nil => exact ht
  | cons u us ih =>
    rw [List.foldl_cons]
    refine ih (ArithExpr.Add t u) ?_ (fun v hv => hts v (List.mem_cons_of_mem _ hv))
    show max (degIn x t) (degIn x u) ≤ d
    exact max_le ht (hts u (List.mem_cons_self u us))

theorem degIn_sumExprs_le (K : TowerFieldModel) (x : Nat)
    (ts : List (ArithExpr K.F)) (hts : ∀ u ∈ ts, degIn x u ≤ 1) :
    degIn x (sumExprs K ts) ≤ 1 := by
  cases ts with
  | nil => exact Nat.zero_le 1
  | cons t ts =>
    exact degIn_foldl_add_le x ts t 1 (hts t (List.mem_cons_self t ts))
      (fun v hv => hts v (List.mem_cons_of_mem _ hv))

theorem foldl_add_count_ite (m x : Nat) :
    (List.range m).foldl (fun acc i => acc + if i = x then 1 else 0) 0 =
      if x < m then 1 else 0 := by
  induction m with
  | zero => rfl
  | succ m ih =>
    rw [List.range_succ, List.foldl_append, ih, List.foldl_cons, List.foldl_nil]
    by_cases hmx : m = x
    · subst hmx
      simp [Nat.lt_irrefl, Nat.lt_succ_self]
    · by_cases hx : x < m
      · simp [hmx, hx, Nat.lt_succ_of_lt hx]
      · have hx1 : ¬ x < m + 1 := by omega
        simp [hmx, hx, hx1]

theorem foldl_congr_fun {α β : Type} (l : List α) (f g : β → α → β) (init : β)
    (h : ∀ acc : β, ∀ x ∈ l, f acc x = g acc x) :
    l.foldl f init = l.foldl g init := by
  induction l generalizing init with
  | nil => rfl
  | cons x xs ih =>
    rw [List.foldl_cons, List.foldl_cons, h init x (List.mem_cons_self x xs)]
    exact ih _ (fun acc y hy => h acc y (List.mem_cons_of_mem _ hy))

theorem mul_boolPoint_basis (K : TowerFieldModel) (r i : Nat) :
    K.mul (boolPoint K r i) (K.basis i) =
      if r.testBit i then K.basis i else K.zero := by
  unfold boolPoint
  by_cases h : r.testBit i
  · rw [if_pos h, if_pos h, K.one_mul]
  · rw [if_neg h, if_neg h, K.zero_mul]

/-! Claim theorems. -/

/-- C1: for every tower field `K`, every `m ≤ N_BITS K`, and every row
index `r < 2 ^ m`, evaluating the synthesized incrementing expression at
the boolean point whose coordinate `i` is bit `i` of `r` yields the
field element whose basis expansion over the 1-bit base field is the bit
expansion of `r`. -/
theorem incrementing_expr_eval_correct (K : TowerFieldModel) (m : Nat)
    (hm : m ≤ K.N_BITS) (r : Nat) (hr : r < 2 ^ m) (e : ArithExpr K.F)
    (he : incrementing_expr K m = Except.ok e) :
    eval K e (boolPoint K r) = toFieldValue K m r := by
  rw [incrementing_expr_ok K m hm] at he
  cases he
  rw [eval_incTerms]
  unfold toFieldValue
  exact foldl_congr_fun _ _ _ _
    (fun acc i _ => by rw [mul_boolPoint_basis])

theorem incrementing_expr_eval_correct_witness :
    5 ≤ B32.N_BITS ∧ 13 < 2 ^ 5 ∧
      eval B32 (sumExprs B32 (incTerms B32 5)) (boolPoint B32 13) =
        toFieldValue B32 5 13 ∧
      toFieldValue B32 5 13 = ⟨13, by norm_num⟩ :=
  ⟨by decide, by decide,
    incrementing_expr_eval_correct B32 5 (by decide) 13 (by decide) _ rfl,
    by decide⟩

/-- C2: at the failing input `n_vars = max_size_log + 1` the code rejects
the size as the claim requires, but it constructs the
`MaxLogSizeTooLarge` variant, not the `TableSizeTooLarge` variant the
claim (and the variant's own error message) names; at
`n_vars = max_size_log` it succeeds. -/
theorem check_nvars_wrong_variant :
    StructuredDynSize.check_nvars (StructuredDynSize.Incrementing 5) 6 =
      Except.error Error.MaxLogSizeTooLarge ∧
    Error.MaxLogSizeTooLarge ≠ Error.TableSizeTooLarge ∧
    StructuredDynSize.check_nvars (StructuredDynSize.Incrementing 5) 5 =
      Except.ok () :=
  ⟨rfl, by decide, rfl⟩

/-- C3: synthesis through `StructuredDynSize.expr` fails with
`MaxLogSizeTooLarge` exactly when the declared capacity exceeds the
field bit width, and returns an expression whenever it does not. -/
theorem expr_field_capacity_check (K : TowerFieldModel) (m : Nat) :
    (StructuredDynSize.expr K (StructuredDynSize.Incrementing m) =
        Except.error Error.MaxLogSizeTooLarge ↔ K.N_BITS < m) ∧
    (m ≤ K.N_BITS →
      StructuredDynSize.expr K (StructuredDynSize.Incrementing m) =
        Except.ok (sumExprs K (incTerms K m))) := by
  constructor
  · constructor
    · intro h
      by_contra hm
      rw [StructuredDynSize.expr, incrementing_expr_ok K m (Nat.not_lt.mp hm)] at h
      exact Except.noConfusion h
    · intro hm
      show incrementing_expr K m = _
      unfold incrementing_expr
      rw [if_pos hm]
  · intro hm
    exact incrementing_expr_ok K m hm

theorem expr_field_capacity_check_witness :
    (StructuredDynSize.expr B32 (StructuredDynSize.Incrementing 33) =
      Except.error Error.MaxLogSizeTooLarge) ∧
    StructuredDynSize.expr B32 (StructuredDynSize.Incrementing 32) =
      Except.ok (sumExprs B32 (incTerms B32 32)) :=
  ⟨(expr_field_capacity_check B32 33).1.mpr (by decide),
    (expr_field_capacity_check B32 32).2 (by decide)⟩

/-- C4: under `m ≤ N_BITS K` the synthesized expression is the sum of
exactly `m` terms: flattening its additions recovers the term list,
whose length is `m` and whose `i`-th entry is
`Var i * Const (basis i)`. -/
theorem incrementing_expr_structure (K : TowerFieldModel) (m : Nat)
    (hm : m ≤ K.N_BITS) :
    incrementing_expr K m = Except.ok (sumExprs K (incTerms K m)) ∧
    (incTerms K m).length = m ∧
    (∀ i, i < m → (incTerms K m)[i]? =
      some (ArithExpr.Mul (ArithExpr.Var i) (ArithExpr.Const (K.basis i)))) ∧
    (1 ≤ m → summands (sumExprs K (incTerms K m)) = incTerms K m) := by
  refine ⟨incrementing_expr_ok K m hm, by simp [incTerms], ?_, ?_⟩
  · intro i hi
    simp [incTerms, List.getElem?_map, List.getElem?_range hi]
  · intro hpos
    refine summands_sumExprs K _ ?_ ?_
    · intro u hu
      rcases List.mem_map.mp hu with ⟨i, _, rfl⟩
      rfl
    · have hlen : (incTerms K m).length = m := by simp [incTerms]
      intro hnil
      rw [hnil] at hlen
      simp at hlen
      omega

theorem incrementing_expr_structure_witness :
    incrementing_expr B32 32 = Except.ok (sumExprs B32 (incTerms B32 32)) ∧
    (incTerms B32 32).length = 32 ∧
    (incTerms B32 32)[7]? =
      some (ArithExpr.Mul (ArithExpr.Var 7) (ArithExpr.Const (B32.basis 7))) ∧
    summands (sumExprs B32 (incTerms B32 32)) = incTerms B32 32 := by
  obtain ⟨h1, h2, h3, h4⟩ := incrementing_expr_structure B32 32 (by decide)
  exact ⟨h1, h2, h3 7 (by decide), h4 (by decide)⟩

/-- C5: synthesis at capacity 0 succeeds and returns the empty sum, the
constant-zero expression, which evaluates to zero at every assignment;
the degenerate case is not a failure. -/
theorem incrementing_expr_zero_capacity (K : TowerFieldModel) :
    incrementing_expr K 0 = Except.ok (ArithExpr.Const K.zero) ∧
    ∀ σ : Nat → K.F, eval K (ArithExpr.Const K.zero) σ = K.zero := by
  constructor
  · rw [incrementing_expr_ok K 0 (Nat.zero_le _)]
    rfl
  · intro σ
    rfl

/-- C6: synthesis is deterministic and pure: two calls of
`StructuredDynSize.expr` on the same spec and field return equal
expressions, with identical evaluation behavior at every assignment. -/
theorem expr_deterministic (K : TowerFieldModel) (s : StructuredDynSize)
    (e₁ e₂ : ArithExpr K.F) (h₁ : s.expr K = Except.ok e₁)
    (h₂ : s.expr K = Except.ok e₂) :
    e₁ = e₂ ∧ ∀ σ : Nat → K.F, eval K e₁ σ = eval K e₂ σ := by
  have h : Except.ok (ε := Error) e₁ = Except.ok e₂ := h₁.symm.trans h₂
  cases h
  exact ⟨rfl, fun σ => rfl⟩

theorem expr_deterministic_witness :
    sumExprs B32 (incTerms B32 5) = sumExprs B32 (incTerms B32 5) ∧
      eval B32 (sumExprs B32 (incTerms B32 5)) (boolPoint B32 3) =
        eval B32 (sumExprs B32 (incTerms B32 5)) (boolPoint B32 3) := by
  obtain ⟨h1, h2⟩ :=
    expr_deterministic B32 (StructuredDynSize.Incrementing 5) _ _ rfl rfl
  exact ⟨h1, h2 (boolPoint B32 3)⟩

theorem foldl_add_zero_terms (K : TowerFieldModel) (l : List Nat)
    (σ : Nat → K.F) (h : ∀ i ∈ l, σ i = K.zero) (acc : K.F) :
    l.foldl (fun acc i => K.add acc (K.mul (σ i) (K.basis i))) acc = acc := by
  induction l generalizing acc with
  | nil => rfl
  | cons i is ih =>
    rw [List.foldl_cons, h i (List.mem_cons_self i is), K.zero_mul, K.add_zero]
    exact ih (fun j hj => h j (List.mem_cons_of_mem _ hj)) acc

/-- C7: at any assignment whose coordinates of index at least `k` are
zero, the `m`-variable incrementing expression evaluates to the same
value as the `k`-variable one: the high-order terms contribute zero. -/
theorem eval_incrementing_high_zero (K : TowerFieldModel) (m k : Nat)
    (hm : m ≤ K.N_BITS) (hk : k ≤ m) (σ : Nat → K.F)
    (hσ : ∀ i, k ≤ i → i < m → σ i = K.zero)
    (em ek : ArithExpr K.F)
    (hem : incrementing_expr K m = Except.ok em)
    (hek : incrementing_expr K k = Except.ok ek) :
    eval K em σ = eval K ek σ := by
  rw [incrementing_expr_ok K m hm] at hem
  rw [incrementing_expr_ok K k (le_trans hk hm)] at hek
  cases hem
  cases hek
  rw [eval_incTerms, eval_incTerms]
  conv_lhs => rw [show m = k + (m - k) from by omega]
  rw [List.range_add, List.foldl_append]
  refine foldl_add_zero_terms K _ σ ?_ _
  intro i hi
  rcases List.mem_map.mp hi with ⟨j, hj, rfl⟩
  have hjlt : j < m - k := List.mem_range.mp hj
  exact hσ (k + j) (Nat.le_add_right k j) (by omega)

theorem eval_incrementing_high_zero_witness :
    eval B32 (sumExprs B32 (incTerms B32 32)) (boolPoint B32 13) =
      eval B32 (sumExprs B32 (incTerms B32 5)) (boolPoint B32 13) ∧
    eval B32 (sumExprs B32 (incTerms B32 5)) (boolPoint B32 13) =
      ⟨13, by norm_num⟩ :=
  ⟨eval_incrementing_high_zero B32 32 5 (by decide) (by decide) _
      (fun i h5 _ => by
        have hbit : Nat.testBit 13 i = false :=
          Nat.testBit_lt_two_pow
            (lt_of_lt_of_le (by norm_num : (13 : Nat) < 2 ^ 5)
              (Nat.pow_le_pow_right (by norm_num) h5))
        simp [boolPoint, hbit])
      _ _ rfl rfl,
    by decide⟩

theorem incTermsChecked_eq (K : TowerFieldModel) (m : Nat)
    (hm : m ≤ K.N_BITS) : incTermsChecked K m = some (incTerms K m) := by
  induction m with
  | zero => rfl
  | succ m ih =>
    unfold incTermsChecked
    rw [ih (Nat.le_of_succ_le hm)]
    unfold basisChecked
    rw [if_pos (lt_of_lt_of_le (Nat.lt_succ_self m) hm)]
    show some _ = some (incTerms K (m + 1))
    simp [incTerms, List.range_succ]

/-- C8: both public operations are total (they return a result for every
input), and under the `N_BITS` guard every basis lookup made while
synthesizing is in range: the checked synthesis, in which an
out-of-range lookup would surface as a forwarded math error, agrees
exactly with the unchecked one. -/
theorem operations_total_basis_in_range (K : TowerFieldModel) (m : Nat) :
    incrementing_expr_checked K m = incrementing_expr K m ∧
    ∀ s : StructuredDynSize, ∀ n : Nat,
      s.check_nvars n = Except.ok () ∨
      s.check_nvars n = Except.error Error.MaxLogSizeTooLarge := by
  constructor
  · by_cases hm : m > K.N_BITS
    · unfold incrementing_expr_checked incrementing_expr
      rw [if_pos hm, if_pos hm]
    · unfold incrementing_expr_checked
      rw [if_neg hm, incTermsChecked_eq K m (Nat.le_of_not_lt hm),
        incrementing_expr_ok K m (Nat.le_of_not_lt hm)]
  · intro s n
    unfold StructuredDynSize.check_nvars
    by_cases h : n > s.max_size_log
    · right
      rw [if_pos h]
    · left
      rw [if_neg h]

/-- C9: a failing call of `StructuredDynSize.expr` returns only the
`MaxLogSizeTooLarge` variant; the `Math` (and `TableSizeTooLarge`)
variants are never constructed by synthesis. -/
theorem expr_error_only_max_log (K : TowerFieldModel) (m : Nat) (err : Error)
    (h : StructuredDynSize.expr K (StructuredDynSize.Incrementing m) =
      Except.error err) :
    err = Error.MaxLogSizeTooLarge := by
  have h2 : incrementing_expr K m = Except.error err := h
  unfold incrementing_expr at h2
  by_cases hm : m > K.N_BITS
  · rw [if_pos hm] at h2
    cases h2
    rfl
  · rw [if_neg hm] at h2
    exact Except.noConfusion h2

theorem expr_error_only_max_log_witness :
    Error.MaxLogSizeTooLarge = Error.MaxLogSizeTooLarge ∧
    StructuredDynSize.expr B32 (StructuredDynSize.Incrementing 33) =
      Except.error Error.MaxLogSizeTooLarge :=
  ⟨expr_error_only_max_log B32 33 Error.MaxLogSizeTooLarge rfl, rfl⟩

/-- C10: the synthesized expression is multilinear: each variable
`x < m` occurs in exactly one summand, no variable of index at least `m`
is referenced, and the degree in every variable is at most 1. -/
theorem incrementing_expr_multilinear (K : TowerFieldModel) (m : Nat)
    (hm : m ≤ K.N_BITS) (e : ArithExpr K.F)
    (he : incrementing_expr K m = Except.ok e) (x : Nat) :
    occCount x e = (if x < m then 1 else 0) ∧ degIn x e ≤ 1 := by
  rw [incrementing_expr_ok K m hm] at he
  cases he
  constructor
  · rw [occCount_sumExprs, incTerms, List.foldl_map]
    rw [foldl_congr_fun _ _ (fun acc i => acc + if i = x then 1 else 0) _
      (fun acc i _ => by simp [occCount])]
    exact foldl_add_count_ite m x
  · refine degIn_sumExprs_le K x (incTerms K m) ?_
    intro u hu
    rcases List.mem_map.mp hu with ⟨i, _, rfl⟩
    by_cases hix : i = x
    · simp [degIn, hix]
    · simp [degIn, hix]

theorem incrementing_expr_multilinear_witness :
    occCount 3 (sumExprs B32 (incTerms B32 5)) = 1 ∧
    degIn 3 (sumExprs B32 (incTerms B32 5)) ≤ 1 ∧
    occCount 7 (sumExprs B32 (incTerms B32 5)) = 0 := by
  obtain ⟨h1, h2⟩ := incrementing_expr_multilinear B32 5 (by decide) _ rfl 3
  obtain ⟨h3, _⟩ := incrementing_expr_multilinear B32 5 (by decide) _ rfl 7
  exact ⟨by simpa using h1, h2, by simpa using h3⟩

end BiniusM3
